import Mathlib

/-!
Verification of the banner/scrambler animator (main.py, main2.py, Main4.py, Main5.py,
main7.py family).

Shallow embedding conventions:
* a Block is a list of lines, each line a list of characters (Python list[str]);
* Python floats used for times, probabilities and biases are modelled as rationals;
* the shared random generator is modelled as a pair of streams: floats gives the
  successive values of random.random(), choices gives the successive indices picked
  by random.choice; two counters record how many draws of each kind happened, so the
  consumption pattern (including short-circuit evaluation) is threaded explicitly;
* styled terminal lines (strings with embedded ANSI color codes) are lists of tokens,
  a token being either a printable character or one escape sequence, so strip_ansi
  is the filter keeping the printable characters;
* for the scramble easing, ease_out_expo computes 1 - 2^(-10 t) in floating point,
  which has no exact rational embedding, so the easing map is an abstract parameter:
  the theorems proved about scramble_frame hold for every easing function.
-/

-- ===================== basic block model (main.py) =====================

abbrev Block := List (List Char)

/-- Cell accessor: character at row y, column x, blank when out of range. -/
def cellAt (b : Block) (y x : Nat) : Char :=
  (((b.getD y []).getD x ' '))

/-- measure_block from main.py: (max line length, number of lines). -/
def measure_block (block : Block) : Nat × Nat :=
  ((block.map List.length).foldr max 0, block.length)

/-- pad_block from main.py: left-justify every line to the given width. -/
def pad_block (block : Block) (width : Nat) : Block :=
  block.map (fun line => line ++ List.replicate (width - line.length) ' ')

-- ===================== character sets =====================

/-- string.ascii_lowercase. -/
def asciiLowercase : List Char := (List.range 26).map (fun i => Char.ofNat (97 + i))

/-- string.ascii_uppercase. -/
def asciiUppercase : List Char := (List.range 26).map (fun i => Char.ofNat (65 + i))

/-- string.digits. -/
def asciiDigits : List Char := (List.range 10).map (fun i => Char.ofNat (48 + i))

/-- string.ascii_letters = lowercase followed by uppercase. -/
def asciiLetters : List Char := asciiLowercase ++ asciiUppercase

/-- string.punctuation: ASCII codes 33-47, 58-64, 91-96, 123-126. -/
def asciiPunctuation : List Char :=
  ((List.range 15).map (fun i => Char.ofNat (33 + i)))
    ++ ((List.range 7).map (fun i => Char.ofNat (58 + i)))
    ++ ((List.range 6).map (fun i => Char.ofNat (91 + i)))
    ++ ((List.range 4).map (fun i => Char.ofNat (123 + i)))

/-- CHARSETS["ascii"] from main.py: chr(33)..chr(126). -/
def charsetAscii : List Char := (List.range 94).map (fun i => Char.ofNat (33 + i))

/-- CHARSETS["blocks"] from main.py: " .:-=+*#%@". -/
def charsetBlocks : List Char := [' ', '.', ':', '-', '=', '+', '*', '#', '%', '@']

-- ===================== Python sorted(set(...)) =====================

/-- Insert a character into a sorted duplicate-free list, keeping it sorted. -/
def insertSorted (c : Char) : List Char → List Char
  | [] => [c]
  | d :: t => if c = d then d :: t else if c < d then c :: d :: t else d :: insertSorted c t

/-- Python "".join(sorted(set(s))): the sorted list of distinct characters of s. -/
def pySortedSet (s : List Char) : List Char := s.foldr insertSorted []

theorem mem_insertSorted (a c : Char) (l : List Char) :
    a ∈ insertSorted c l ↔ a = c ∨ a ∈ l := by
  induction l with
  | nil => simp [insertSorted]
  | cons d t ih =>
    simp only [insertSorted]
    split
    · next h => subst h; simp [List.mem_cons]
    · next h =>
      split
      · simp [List.mem_cons]
      · simp only [List.mem_cons, ih]; tauto

theorem mem_pySortedSet (a : Char) (s : List Char) :
    a ∈ pySortedSet s ↔ a ∈ s := by
  induction s with
  | nil => simp [pySortedSet]
  | cons c t ih =>
    simp only [pySortedSet, List.foldr] at ih ⊢
    rw [mem_insertSorted, ih, List.mem_cons]

-- ===================== alphabet builders (main2.py and Main5.py) =====================

namespace Main2

/-- POOLS from main2.py; lookup with default POOLS["alnum+punct"] as in
POOLS.get(pool_key, POOLS["alnum+punct"]). -/
def POOLS (key : String) : List Char :=
  if key = "letters" then asciiLetters ++ [' ']
  else if key = "letters+digits" then asciiLetters ++ asciiDigits ++ [' ']
  else if key = "printable" then
    -- string.printable minus "\t\r\x0b\x0c"
    (asciiDigits ++ asciiLetters ++ asciiPunctuation
      ++ [' ', '\t', '\n', '\r', Char.ofNat 11, Char.ofNat 12]).filter
      (fun c => c ∉ ['\t', '\r', Char.ofNat 11, Char.ofNat 12])
  else asciiLetters ++ asciiDigits ++ asciiPunctuation ++ [' ']

/-- build_alphabet from main2.py: sorted set of pool plus the target's characters
with newlines removed. -/
def build_alphabet (target : List Char) (pool_key : String) : List Char :=
  pySortedSet (POOLS pool_key ++ target.filter (fun c => c ≠ '\n'))

end Main2

namespace Main5

/-- Python str.upper restricted to ASCII (all characters of this program are ASCII). -/
def pyUpper (c : Char) : Char :=
  if 'a' ≤ c ∧ c ≤ 'z' then Char.ofNat (c.toNat - 32) else c

/-- POOLS from Main5.py (uppercase-only pools); lookup defaults to "alnum+punct". -/
def POOLS (key : String) : List Char :=
  if key = "letters" then asciiUppercase ++ [' ']
  else if key = "letters+digits" then asciiUppercase ++ asciiDigits ++ [' ']
  else asciiUppercase ++ asciiDigits ++ [' ', '.', ',', ':', '!', '?', '-']

/-- build_alphabet from Main5.py: the target is uppercased before its characters are
added to the pool. -/
def build_alphabet (target : List Char) (pool_key : String) : List Char :=
  pySortedSet (POOLS pool_key ++ pySortedSet ((target.map pyUpper).filter (fun c => c ≠ '\n')))

theorem chr_toNat_ofNat (k : Nat) (h : k.isValidChar) : (Char.ofNat k).toNat = k := by
  simp only [Char.ofNat, dif_pos h]
  rcases h with h1 | ⟨h1, h2⟩ <;>
    simp [Char.ofNatAux, Char.toNat, UInt32.toNat, BitVec.toNat_ofNat]

theorem pyUpper_ne_newline (c : Char) (hc : c ≠ '\n') : pyUpper c ≠ '\n' := by
  unfold pyUpper
  split
  · next h =>
    obtain ⟨h1, h2⟩ := h
    have hn1 : 97 ≤ c.toNat := h1
    have hn2 : c.toNat ≤ 122 := h2
    intro heq
    have hv : (c.toNat - 32).isValidChar := Or.inl (by omega)
    have := congrArg Char.toNat heq
    rw [chr_toNat_ofNat _ hv] at this
    have h10 : Char.toNat '\n' = 10 := rfl
    omega
  · exact hc

end Main5

/-- C3, amended. For main2.py's build_alphabet the claim holds exactly as stated:
every character of the target other than a newline is in the returned alphabet.
Main5.py's build_alphabet uppercases the target first, so it is the uppercased
character that is guaranteed to be present. -/
theorem build_alphabet_superset (T : List Char) (P : String) (c : Char)
    (hc : c ∈ T) (hnl : c ≠ '\n') :
    c ∈ Main2.build_alphabet T P ∧ Main5.pyUpper c ∈ Main5.build_alphabet T P := by
  constructor
  · unfold Main2.build_alphabet
    rw [mem_pySortedSet]
    apply List.mem_append_right
    rw [List.mem_filter]
    exact ⟨hc, by simpa using hnl⟩
  · unfold Main5.build_alphabet
    rw [mem_pySortedSet]
    apply List.mem_append_right
    rw [mem_pySortedSet, List.mem_filter]
    exact ⟨List.mem_map_of_mem _ hc, by simpa using Main5.pyUpper_ne_newline c hnl⟩

/-- C3 counterexample: the claim as stated fails for Main5.py's build_alphabet.
The target "a" contains the non-newline character 'a', yet the returned alphabet
(uppercase pool plus uppercased target symbols) does not contain 'a'. -/
theorem build_alphabet_superset_cex :
    'a' ∈ (['a'] : List Char) ∧ 'a' ∉ Main5.build_alphabet ['a'] "letters" := by
  constructor
  · decide
  · decide

/-- Witness for build_alphabet_superset at a concrete target and pool. -/
theorem build_alphabet_superset_witness :
    'b' ∈ Main2.build_alphabet ['b'] "letters" ∧
      Main5.pyUpper 'b' ∈ Main5.build_alphabet ['b'] "letters" :=
  build_alphabet_superset ['b'] "letters" 'b' (by decide) (by decide)

-- ===================== random source =====================

/-- The shared pseudo-random generator, as two streams with draw counters:
floats are the successive results of random.random() (reals in [0,1), here
rationals), choices the successive indices drawn by random.choice. -/
structure Rng where
  floats : Nat → ℚ
  choices : Nat → Nat
  fi : Nat
  ci : Nat

/-- One call of random.random(). -/
def rnd (g : Rng) : ℚ × Rng :=
  (g.floats g.fi, ⟨g.floats, g.choices, g.fi + 1, g.ci⟩)

/-- One call of random.choice(seq). -/
def choice (seq : List Char) (g : Rng) : Char × Rng :=
  (seq.getD (g.choices g.ci % seq.length) ' ', ⟨g.floats, g.choices, g.fi, g.ci + 1⟩)

/-- A generator whose float stream only produces values in [0,1), as
random.random() does. -/
def Rng.Valid (g : Rng) : Prop := ∀ i, 0 ≤ g.floats i ∧ g.floats i < 1

-- ===================== main.py utils =====================

/-- clamp from main.py. -/
def pyclamp (v lo hi : ℚ) : ℚ := if v < lo then lo else if v > hi then hi else v

/-- phased_progress from main.py, with the floating-point ease_out_expo easing
abstracted as a parameter (see the header note). -/
def phased_progress (ease : ℚ → ℚ) (col_idx total_cols : Nat) (t wave_ms : ℚ) : ℚ :=
  let offset := ((col_idx : ℚ) / ((max 1 (total_cols - 1) : Nat) : ℚ)) * (wave_ms / 1000)
  pyclamp (ease (t - offset)) 0 1

-- ===================== main.py animation modes =====================

/-- One line of scramble_frame from main.py; x is the running enumerate index.
random.random() is consumed only when the phase test passes (short-circuit and),
random.choice only when the draw is below the running bias. -/
def scrambleLine (ease : ℚ → ℚ) (charset : List Char) (w : Nat)
    (t settle_bias wave_ms : ℚ) : Nat → List Char → Rng → List Char × Rng
  | _, [], g => ([], g)
  | x, ch :: rest, g =>
    if ch = ' ' then
      let p := scrambleLine ease charset w t settle_bias wave_ms (x + 1) rest g
      (' ' :: p.1, p.2)
    else
      let phase := phased_progress ease x w t wave_ms
      if phase < 999/1000 then
        let u := rnd g
        if u.1 < (if phase < 9/10 then settle_bias else 15/100) then
          let c := choice charset u.2
          let p := scrambleLine ease charset w t settle_bias wave_ms (x + 1) rest c.2
          (c.1 :: p.1, p.2)
        else
          let p := scrambleLine ease charset w t settle_bias wave_ms (x + 1) rest u.2
          (ch :: p.1, p.2)
      else
        let p := scrambleLine ease charset w t settle_bias wave_ms (x + 1) rest g
        (ch :: p.1, p.2)

/-- The per-line part of scramble_frame, threading the generator through the
lines of the block; w is the precomputed block width. -/
def scrambleLines (ease : ℚ → ℚ) (charset : List Char) (w : Nat)
    (t settle_bias wave_ms : ℚ) : Block → Rng → Block × Rng
  | [], g => ([], g)
  | line :: rest, g =>
    let p := scrambleLine ease charset w t settle_bias wave_ms 0 line g
    let q := scrambleLines ease charset w t settle_bias wave_ms rest p.2
    (p.1 :: q.1, q.2)

/-- scramble_frame from main.py (easing abstracted, randomness threaded). -/
def scramble_frame (ease : ℚ → ℚ) (block : Block) (charset : List Char)
    (t settle_bias wave_ms : ℚ) (g : Rng) : Block × Rng :=
  scrambleLines ease charset (measure_block block).1 t settle_bias wave_ms block g

/-- One line of glitch_frame from main.py. -/
def glitchLine (t intensity : ℚ) : List Char → Rng → List Char × Rng
  | [], g => ([], g)
  | ch :: rest, g =>
    if ch = ' ' then
      let p := glitchLine t intensity rest g
      (' ' :: p.1, p.2)
    else
      let u := rnd g
      if u.1 < intensity * (1 - t) then
        let c := choice charsetAscii u.2
        let p := glitchLine t intensity rest c.2
        (c.1 :: p.1, p.2)
      else
        let p := glitchLine t intensity rest u.2
        (ch :: p.1, p.2)

/-- glitch_frame from main.py. -/
def glitch_frame (block : Block) (t intensity : ℚ) (g : Rng) : Block × Rng :=
  match block, g with
  | [], g => ([], g)
  | line :: rest, g =>
    let p := glitchLine t intensity line g
    let q := glitch_frame rest t intensity p.2
    (p.1 :: q.1, q.2)

/-- One line of matrix_frame from main.py; the rain charset is CHARSETS["blocks"].
Every cell consumes one random.random(); random.choice is consumed only on the
rain branches. -/
def matrixLine (t density : ℚ) : List Char → Rng → List Char × Rng
  | [], g => ([], g)
  | ch :: rest, g =>
    if ch ≠ ' ' then
      let u := rnd g
      if u.1 < t then
        let p := matrixLine t density rest u.2
        (ch :: p.1, p.2)
      else
        let c := choice charsetBlocks u.2
        let p := matrixLine t density rest c.2
        (c.1 :: p.1, p.2)
    else
      let u := rnd g
      if u.1 < density * (1 - t) then
        let c := choice charsetBlocks u.2
        let p := matrixLine t density rest c.2
        (c.1 :: p.1, p.2)
      else
        let p := matrixLine t density rest u.2
        (' ' :: p.1, p.2)

/-- matrix_frame from main.py. -/
def matrix_frame (block : Block) (t density : ℚ) (g : Rng) : Block × Rng :=
  match block, g with
  | [], g => ([], g)
  | line :: rest, g =>
    let p := matrixLine t density line g
    let q := matrix_frame rest t density p.2
    (p.1 :: q.1, q.2)

-- ===================== typewriter (main.py) =====================

/-- Python int() truncation toward zero on a rational. -/
def pyInt (q : ℚ) : ℤ := if 0 ≤ q then ⌊q⌋ else -⌊-q⌋

/-- Python slice l[:n], including the negative-n case that drops from the end. -/
def pySlice {α : Type} (l : List α) (n : ℤ) : List α :=
  if 0 ≤ n then l.take n.toNat else l.take (l.length - (-n).toNat)

/-- Coordinates of the non-blank cells of one line, in order; x is the running
enumerate index, y the row index. -/
def rowCoords (y : Nat) : Nat → List Char → List (Nat × Nat)
  | _, [] => []
  | x, ch :: rest =>
    if ch ≠ ' ' then (y, x) :: rowCoords y (x + 1) rest else rowCoords y (x + 1) rest

/-- Row-major coordinates of the non-blank cells of a block, starting at row y. -/
def coordsAux : Nat → Block → List (Nat × Nat)
  | _, [] => []
  | y, row :: rest => rowCoords y 0 row ++ coordsAux (y + 1) rest

/-- The coords list of typewriter_frame from main.py:
[(y,x) for y,row in enumerate(block) for x,ch in enumerate(row) if ch != " "]. -/
def coords (block : Block) : List (Nat × Nat) := coordsAux 0 block

/-- One output row of typewriter_frame: keep the characters at revealed
coordinates, blank the rest. -/
def maskRow (y : Nat) (revealed : List (Nat × Nat)) : Nat → List Char → List Char
  | _, [] => []
  | x, ch :: rest =>
    (if (y, x) ∈ revealed then ch else ' ') :: maskRow y revealed (x + 1) rest

/-- The output block of typewriter_frame, row by row. -/
def maskBlock (revealed : List (Nat × Nat)) : Nat → Block → Block
  | _, [] => []
  | y, row :: rest => maskRow y revealed 0 row :: maskBlock revealed (y + 1) rest

/-- typewriter_frame from main.py. -/
def typewriter_frame (block : Block) (t : ℚ) (cps : Nat) : Block :=
  let cs := coords block
  let n := pyInt (min (cs.length : ℚ) (t * (cps : ℚ)))
  let revealed := pySlice cs n
  maskBlock revealed 0 block

-- ===================== compositor (main.py) =====================

/-- OUTLINE_CHARS from main.py, accessed at key min(3, n) with n ≥ 1. -/
def OUTLINE_CHARS (n : Nat) : Char :=
  if n = 1 then '·' else if n = 2 then '∙' else '•'

/-- The eight neighbor offsets, in the loop order dy in (-1,0,1), dx in (-1,0,1)
with (0,0) skipped. -/
def neighborOffsets : List (Int × Int) :=
  [(-1, -1), (-1, 0), (-1, 1), (0, -1), (0, 1), (1, -1), (1, 0), (1, 1)]

/-- The neighbor count n of outline_block at cell (y,x) of the padded block. -/
def neighborCount (padded : Block) (h w y x : Nat) : Nat :=
  (neighborOffsets.filter (fun d =>
    let ny : Int := (y : Int) + d.1
    let nx : Int := (x : Int) + d.2
    0 ≤ ny ∧ ny < (h : Int) ∧ 0 ≤ nx ∧ nx < (w : Int)
      ∧ cellAt padded ny.toNat nx.toNat ≠ ' ')).length

/-- outline_block from main.py: blank cells with at least one of the eight
neighbors non-blank become an outline dot whose weight is the neighbor count
capped at 3; other cells keep their padded value. -/
def outline_block (block : Block) : Block :=
  let h := block.length
  let w := (measure_block block).1
  let padded := pad_block block w
  (List.range h).map (fun y => (List.range w).map (fun x =>
    let c := cellAt padded y x
    if c ≠ ' ' then c
    else
      let n := neighborCount padded h w y x
      if n ≠ 0 then OUTLINE_CHARS (min 3 n) else ' '))

/-- shadow_block from main.py: a (h+dy) x (w+dx) canvas where each originally
non-blank cell is re-painted with the shadow character at offset (dy,dx). -/
def shadow_block (block : Block) (dx dy : Nat) (c : Char) : Block :=
  let h := block.length
  let w := (measure_block block).1
  (List.range (h + dy)).map (fun sy => (List.range (w + dx)).map (fun sx =>
    if dy ≤ sy ∧ dx ≤ sx ∧ cellAt block (sy - dy) (sx - dx) ≠ ' ' then c else ' '))

/-- merge_blocks from main.py: pad both layers to a common rectangle, then at
each cell prefer the overlay's non-blank character. -/
def merge_blocks (base overlay : Block) : Block :=
  let h := max base.length overlay.length
  let w := max (measure_block base).1 (measure_block overlay).1
  let b := pad_block (base ++ List.replicate (h - base.length) []) w
  let o := pad_block (overlay ++ List.replicate (h - overlay.length) []) w
  (List.range h).map (fun y => (List.range w).map (fun x =>
    if cellAt o y x ≠ ' ' then cellAt o y x else cellAt b y x))

/-- compose_layers from main.py: outline and shadow merges, each computed from
the original block, applied under the configured toggles. -/
def compose_layers (block : Block) (outline shadow : Bool) : Block :=
  let c1 := if outline then merge_blocks (outline_block block) block else block
  let c2 := if shadow then merge_blocks (shadow_block block 1 1 '▒') c1 else c1
  c2

/-- The final reveal of run_animation in main.py: after the animation loop ends
(t has reached 1.0), one last frame is built directly from the target block via
compose_layers and drawn. -/
def runAnimationFinal (outline shadow : Bool) (base : Block) : Block :=
  compose_layers base outline shadow

-- ===================== generic list helpers =====================

theorem le_foldr_max (a : Nat) (l : List Nat) (h : a ∈ l) : a ≤ l.foldr max 0 := by
  induction l with
  | nil => cases h
  | cons b t ih =>
    rcases List.mem_cons.mp h with rfl | h2
    · exact Nat.le_max_left _ _
    · exact le_trans (ih h2) (Nat.le_max_right _ _)

theorem foldr_max_const (w : Nat) (l : List Nat) (hne : l ≠ [])
    (h : ∀ a ∈ l, a = w) : l.foldr max 0 = w := by
  induction l with
  | nil => exact absurd rfl hne
  | cons b t ih =>
    have hb : b = w := h b (List.mem_cons_self _ _)
    subst hb
    rcases eq_or_ne t [] with rfl | ht
    · simp [List.foldr]
    · have := ih ht (fun a ha => h a (List.mem_cons_of_mem _ ha))
      simp [List.foldr, this]

-- ===================== cell-level facts =====================

theorem cellAt_out_row (b : Block) (y x : Nat) (hy : b.length ≤ y) :
    cellAt b y x = ' ' := by
  unfold cellAt
  rw [List.getD_eq_default _ _ hy]
  rfl

theorem cellAt_out_col (b : Block) (y x : Nat) (hx : (b.getD y []).length ≤ x) :
    cellAt b y x = ' ' := by
  unfold cellAt
  rw [List.getD_eq_default _ _ hx]

theorem cellAt_ne_blank_bounds (b : Block) (y x : Nat) (h : cellAt b y x ≠ ' ') :
    y < b.length ∧ x < (b.getD y []).length := by
  constructor
  · by_contra hy
    exact h (cellAt_out_row b y x (le_of_not_lt hy))
  · by_contra hx
    exact h (cellAt_out_col b y x (le_of_not_lt hx))

theorem getD_map_lt {α β : Type} (f : α → β) (l : List α) (y : Nat) (d : β) (d2 : α)
    (hy : y < l.length) : (l.map f).getD y d = f (l.getD y d2) := by
  rw [List.getD_eq_getElem?_getD, List.getElem?_map, List.getD_eq_getElem?_getD,
    List.getElem?_eq_getElem hy]
  simp

theorem getD_row {α : Type} (l : List α) (y : Nat) (d : α) (hy : y < l.length) :
    l.getD y d = l[y] := by
  rw [List.getD_eq_getElem?_getD, List.getElem?_eq_getElem hy]
  rfl

theorem cellAt_grid (f : Nat → Nat → Char) (h w y x : Nat) (hy : y < h) (hx : x < w) :
    cellAt ((List.range h).map (fun y => (List.range w).map (fun x => f y x))) y x
      = f y x := by
  have hy2 : y < ((List.range h).map (fun y => (List.range w).map (fun x => f y x))).length := by
    simpa using hy
  have hrow : ((List.range h).map (fun y => (List.range w).map (fun x => f y x))).getD y []
      = (List.range w).map (fun x => f y x) := by
    rw [getD_row _ _ _ hy2, List.getElem_map, List.getElem_range]
  have hx2 : x < ((List.range w).map (fun x => f y x)).length := by simpa using hx
  unfold cellAt
  rw [hrow, getD_row _ _ _ hx2, List.getElem_map, List.getElem_range]

theorem row_len_le_width (b : Block) (y : Nat) (hy : y < b.length) :
    (b.getD y []).length ≤ (measure_block b).1 := by
  apply le_foldr_max
  apply List.mem_map_of_mem List.length
  rw [getD_row _ _ _ hy]
  exact List.getElem_mem hy

theorem cellAt_padExt (b : Block) (k w y x : Nat) (hy : y < b.length)
    (hx : x < (b.getD y []).length) :
    cellAt (pad_block (b ++ List.replicate k []) w) y x = cellAt b y x := by
  have hyb : y < (b ++ List.replicate k []).length := by
    simp only [List.length_append]
    omega
  have hyb2 : y < (pad_block (b ++ List.replicate k []) w).length := by
    unfold pad_block
    simpa using hyb
  have hbase : (b ++ List.replicate k [])[y] = b[y] := List.getElem_append_left hy
  have hrow : (pad_block (b ++ List.replicate k []) w).getD y []
      = b[y] ++ List.replicate (w - b[y].length) ' ' := by
    rw [getD_row _ _ _ hyb2]
    simp only [pad_block, List.getElem_map, hbase]
  have hxr : x < b[y].length := by rwa [getD_row _ _ _ hy] at hx
  unfold cellAt
  rw [hrow, getD_row _ _ _ hy]
  rw [List.getD_eq_getElem?_getD, List.getElem?_append, if_pos hxr,
    ← List.getD_eq_getElem?_getD]

theorem cellAt_pad (b : Block) (w y x : Nat) (hy : y < b.length)
    (hx : x < (b.getD y []).length) :
    cellAt (pad_block b w) y x = cellAt b y x := by
  have h := cellAt_padExt b 0 w y x hy hx
  simpa using h

theorem cellAt_pad_blank (b : Block) (w y x : Nat) (hy : y < b.length)
    (hx : (b.getD y []).length ≤ x) :
    cellAt (pad_block b w) y x = ' ' := by
  have hy2 : y < (pad_block b w).length := by
    simpa [pad_block] using hy
  have hrow : (pad_block b w).getD y [] = b[y] ++ List.replicate (w - b[y].length) ' ' := by
    rw [getD_row _ _ _ hy2]
    simp [pad_block]
  have hxr : b[y].length ≤ x := by rwa [getD_row _ _ _ hy] at hx
  unfold cellAt
  rw [hrow, List.getD_eq_getElem?_getD, List.getElem?_append, if_neg (not_lt.mpr hxr)]
  rcases lt_or_ge (x - b[y].length) (w - b[y].length) with h | h <;>
    simp [List.getElem?_replicate, h, Nat.not_lt.mpr h]

theorem merge_preserves (base overlay : Block) (y x : Nat)
    (h : cellAt overlay y x ≠ ' ') :
    cellAt (merge_blocks base overlay) y x = cellAt overlay y x := by
  obtain ⟨hy, hx⟩ := cellAt_ne_blank_bounds overlay y x h
  have hyh : y < max base.length overlay.length := lt_of_lt_of_le hy (Nat.le_max_right _ _)
  have hxw : x < max (measure_block base).1 (measure_block overlay).1 :=
    lt_of_lt_of_le (lt_of_lt_of_le hx (row_len_le_width overlay y hy)) (Nat.le_max_right _ _)
  have ho := cellAt_padExt overlay (max base.length overlay.length - overlay.length)
    (max (measure_block base).1 (measure_block overlay).1) y x hy hx
  unfold merge_blocks
  rw [cellAt_grid _ _ _ _ _ hyh hxw, ho, if_pos h]

theorem compose_preserves (block : Block) (o s : Bool) (y x : Nat)
    (h : cellAt block y x ≠ ' ') :
    cellAt (compose_layers block o s) y x = cellAt block y x := by
  unfold compose_layers
  have h1 : cellAt (if o then merge_blocks (outline_block block) block else block) y x
      = cellAt block y x := by
    cases o with
    | false => rfl
    | true => exact merge_preserves _ _ y x h
  cases s with
  | false => simpa using h1
  | true =>
    simp only [Bool.ite_eq_true_distrib, if_true]
    rw [merge_preserves _ _ y x (h1.trans_ne h), h1]

-- ===================== C6: typewriter_frame =====================

theorem rowCoords_mem (y : Nat) (row : List Char) :
    ∀ x0 p, p ∈ rowCoords y x0 row → p.1 = y ∧ x0 ≤ p.2 := by
  induction row with
  | nil => intro x0 p h; cases h
  | cons ch rest ih =>
    intro x0 p h
    by_cases hch : ch ≠ ' '
    · rw [rowCoords, if_pos hch] at h
      rcases List.mem_cons.mp h with rfl | h2
      · exact ⟨rfl, le_refl _⟩
      · obtain ⟨h3, h4⟩ := ih (x0 + 1) p h2
        exact ⟨h3, le_trans (Nat.le_succ _) h4⟩
    · rw [rowCoords, if_neg hch] at h
      obtain ⟨h3, h4⟩ := ih (x0 + 1) p h
      exact ⟨h3, le_trans (Nat.le_succ _) h4⟩

theorem coordsAux_mem (b : Block) : ∀ y0 p, p ∈ coordsAux y0 b → y0 ≤ p.1 := by
  induction b with
  | nil => intro y0 p h; cases h
  | cons row rest ih =>
    intro y0 p h
    rcases List.mem_append.mp h with h2 | h2
    · exact le_of_eq (rowCoords_mem y0 row 0 p h2).1.symm
    · exact le_trans (Nat.le_succ _) (ih (y0 + 1) p h2)

theorem rowCoords_mask (y : Nat) (row : List Char) :
    ∀ x0 S1 S, S1.Sublist (rowCoords y x0 row) →
      (∀ x, x0 ≤ x → ((y, x) ∈ S ↔ (y, x) ∈ S1)) →
      rowCoords y x0 (maskRow y S x0 row) = S1 := by
  induction row with
  | nil =>
    intro x0 S1 S hsub _
    rw [List.sublist_nil.mp hsub]
    rfl
  | cons ch rest ih =>
    intro x0 S1 S hsub hS
    have hmono : ∀ x, x0 + 1 ≤ x → x0 ≤ x := fun x hx => le_trans (Nat.le_succ _) hx
    by_cases hch : ch ≠ ' '
    · rw [rowCoords, if_pos hch] at hsub
      rcases List.sublist_cons_iff.mp hsub with hA | ⟨r, rfl, hr⟩
      · -- the head coordinate is not revealed
        have hnot1 : (y, x0) ∉ S1 := by
          intro hmem
          have := (rowCoords_mem y rest (x0 + 1) _ (hA.subset hmem)).2
          omega
        have hnotS : (y, x0) ∉ S := fun hmem => hnot1 ((hS x0 (le_refl _)).mp hmem)
        have hS2 : ∀ x, x0 + 1 ≤ x → ((y, x) ∈ S ↔ (y, x) ∈ S1) :=
          fun x hx => hS x (hmono x hx)
        simp only [maskRow, if_neg hnotS]
        rw [rowCoords, if_neg (by simp)]
        exact ih (x0 + 1) S1 S hA hS2
      · -- the head coordinate is revealed
        have hin : (y, x0) ∈ S := (hS x0 (le_refl _)).mpr (List.mem_cons_self _ _)
        have hS2 : ∀ x, x0 + 1 ≤ x → ((y, x) ∈ S ↔ (y, x) ∈ r) := by
          intro x hx
          rw [hS x (hmono x hx), List.mem_cons]
          have : (y, x) ≠ (y, x0) := by
            intro he
            cases he
            omega
          simp [this]
        simp only [maskRow, if_pos hin]
        rw [rowCoords, if_pos hch]
        rw [ih (x0 + 1) r S hr hS2]
    · rw [rowCoords, if_neg hch] at hsub
      have hS2 : ∀ x, x0 + 1 ≤ x → ((y, x) ∈ S ↔ (y, x) ∈ S1) :=
        fun x hx => hS x (le_trans (Nat.le_succ _) hx)
      have hch2 : ch = ' ' := not_not.mp hch
      subst hch2
      simp only [maskRow, ite_self]
      rw [rowCoords, if_neg (by simp)]
      exact ih (x0 + 1) S1 S hsub hS2

theorem coordsAux_mask (b : Block) :
    ∀ y0 S1 S, S1.Sublist (coordsAux y0 b) →
      (∀ p : Nat × Nat, y0 ≤ p.1 → (p ∈ S ↔ p ∈ S1)) →
      coordsAux y0 (maskBlock S y0 b) = S1 := by
  induction b with
  | nil =>
    intro y0 S1 S hsub _
    rw [List.sublist_nil.mp hsub]
    rfl
  | cons row rest ih =>
    intro y0 S1 S hsub hS
    rw [coordsAux] at hsub
    obtain ⟨A, B, rfl, hA, hB⟩ := List.sublist_append_iff.mp hsub
    have hSA : ∀ x, 0 ≤ x → ((y0, x) ∈ S ↔ (y0, x) ∈ A) := by
      intro x _
      rw [hS (y0, x) (le_refl _), List.mem_append]
      have hnB : (y0, x) ∉ B := by
        intro hmem
        have := coordsAux_mem rest (y0 + 1) _ (hB.subset hmem)
        omega
      simp [hnB]
    have hSB : ∀ p : Nat × Nat, y0 + 1 ≤ p.1 → (p ∈ S ↔ p ∈ B) := by
      intro p hp
      rw [hS p (le_trans (Nat.le_succ _) hp), List.mem_append]
      have hnA : p ∉ A := by
        intro hmem
        have := (rowCoords_mem y0 row 0 p (hA.subset hmem)).1
        omega
      simp [hnA]
    rw [maskBlock, coordsAux, rowCoords_mask y0 row 0 A S hA hSA,
      ih (y0 + 1) B S hB hSB]

theorem maskRow_getD (y : Nat) (S : List (Nat × Nat)) (row : List Char) :
    ∀ x0 i, (maskRow y S x0 row).getD i ' '
      = if (y, x0 + i) ∈ S then row.getD i ' ' else ' ' := by
  induction row with
  | nil =>
    intro x0 i
    simp [maskRow]
  | cons ch rest ih =>
    intro x0 i
    cases i with
    | zero => simp [maskRow]
    | succ i =>
      simp only [maskRow, List.getD_cons_succ]
      rw [ih (x0 + 1) i]
      have : x0 + 1 + i = x0 + (i + 1) := by omega
      rw [this]

theorem maskBlock_getD (S : List (Nat × Nat)) (b : Block) :
    ∀ y0 j, (maskBlock S y0 b).getD j [] = maskRow (y0 + j) S 0 (b.getD j []) := by
  induction b with
  | nil =>
    intro y0 j
    simp [maskBlock, maskRow]
  | cons row rest ih =>
    intro y0 j
    cases j with
    | zero => simp [maskBlock]
    | succ j =>
      simp only [maskBlock, List.getD_cons_succ]
      rw [ih (y0 + 1) j]
      have : y0 + 1 + j = y0 + (j + 1) := by omega
      rw [this]

theorem cellAt_maskBlock (S : List (Nat × Nat)) (b : Block) (y x : Nat) :
    cellAt (maskBlock S 0 b) y x = if (y, x) ∈ S then cellAt b y x else ' ' := by
  unfold cellAt
  rw [maskBlock_getD S b 0 y, maskRow_getD]
  simp

theorem pySlice_min (l : List (Nat × Nat)) (q : ℚ) (hq : 0 ≤ q) :
    pySlice l (pyInt (min (l.length : ℚ) q))
      = l.take (min l.length (pyInt q).toNat) := by
  have h1 : (0 : ℚ) ≤ min (l.length : ℚ) q := le_min (by positivity) hq
  have hpi : pyInt (min (l.length : ℚ) q) = ⌊min (l.length : ℚ) q⌋ := if_pos h1
  have hpq : pyInt q = ⌊q⌋ := if_pos hq
  have hfl : (0 : ℤ) ≤ ⌊min (l.length : ℚ) q⌋ := Int.le_floor.mpr (by simpa using h1)
  rw [hpi, hpq]
  unfold pySlice
  rw [if_pos hfl]
  congr 1
  rcases le_total q (l.length : ℚ) with h | h
  · rw [min_eq_right h]
    have h2 : ⌊q⌋ ≤ ((l.length : ℤ)) := by
      have := Int.floor_le_floor (α := ℚ) h
      rwa [Int.floor_natCast] at this
    omega
  · rw [min_eq_left h, Int.floor_natCast]
    have h2 : ((l.length : ℤ)) ≤ ⌊q⌋ := by
      have := Int.floor_le_floor (α := ℚ) h
      rwa [Int.floor_natCast] at this
    omega

theorem typewriter_frame_eq (b : Block) (t : ℚ) (cps : Nat) (ht : 0 ≤ t) :
    typewriter_frame b t cps
      = maskBlock ((coords b).take
          (min (coords b).length (pyInt (t * (cps : ℚ))).toNat)) 0 b := by
  show maskBlock
      (pySlice (coords b) (pyInt (min ((coords b).length : ℚ) (t * (cps : ℚ))))) 0 b = _
  rw [pySlice_min (coords b) (t * (cps : ℚ)) (mul_nonneg ht (by positivity))]

/-- C6. For t ≥ 0, typewriter_frame reveals exactly
min(total_non_blank_cells, int(t*cps)) non-blank cells, namely the first that
many coordinates of the row-major coords list; each revealed cell shows its
target symbol (which is non-blank) and every other cell is blank. -/
theorem typewriter_reveal (b : Block) (t : ℚ) (cps : Nat) (ht : 0 ≤ t) :
    coords (typewriter_frame b t cps)
        = (coords b).take (min (coords b).length (pyInt (t * (cps : ℚ))).toNat) ∧
    (coords (typewriter_frame b t cps)).length
        = min (coords b).length (pyInt (t * (cps : ℚ))).toNat ∧
    (∀ y x,
      (y, x) ∈ (coords b).take (min (coords b).length (pyInt (t * (cps : ℚ))).toNat) →
        cellAt (typewriter_frame b t cps) y x = cellAt b y x) ∧
    (∀ y x,
      (y, x) ∉ (coords b).take (min (coords b).length (pyInt (t * (cps : ℚ))).toNat) →
        cellAt (typewriter_frame b t cps) y x = ' ') := by
  set N := min (coords b).length (pyInt (t * (cps : ℚ))).toNat with hN
  have heq := typewriter_frame_eq b t cps ht
  have hcoords : coords (typewriter_frame b t cps) = (coords b).take N := by
    rw [heq]
    exact coordsAux_mask b 0 _ _ (List.take_sublist _ _) (fun p _ => Iff.rfl)
  refine ⟨hcoords, ?_, ?_, ?_⟩
  · rw [hcoords, List.length_take]
    omega
  · intro y x hmem
    rw [heq, cellAt_maskBlock, if_pos hmem]
  · intro y x hmem
    rw [heq, cellAt_maskBlock, if_neg hmem]

/-- Witness for typewriter_reveal, matching the spec scenario: a block with 4
non-blank cells, cps = 10; at t = 0.3 exactly 3 cells are revealed, at t = 0.05
exactly 0. -/
theorem typewriter_reveal_witness :
    (coords (typewriter_frame [['A', 'B'], [' ', 'C'], ['D', ' ']] (3/10) 10)).length
        = min (coords [['A', 'B'], [' ', 'C'], ['D', ' ']]).length
            (pyInt ((3/10 : ℚ) * (10 : Nat))).toNat ∧
    (coords (typewriter_frame [['A', 'B'], [' ', 'C'], ['D', ' ']] (1/20) 10)).length
        = min (coords [['A', 'B'], [' ', 'C'], ['D', ' ']]).length
            (pyInt ((1/20 : ℚ) * (10 : Nat))).toNat :=
  ⟨(typewriter_reveal [['A', 'B'], [' ', 'C'], ['D', ' ']] (3/10) 10 (by norm_num)).2.1,
    (typewriter_reveal [['A', 'B'], [' ', 'C'], ['D', ' ']] (1/20) 10 (by norm_num)).2.1⟩

-- ===================== C9: outline_block =====================

namespace Main7

/-- outline_block from main7.py: like main.py's but decoration-weight-free; the
inner neighbor loop sets a single light dot as soon as one non-blank neighbor is
found, which is equivalent to testing that the neighbor count is non-zero. -/
def outline_block (block : Block) : Block :=
  let h := block.length
  let w := (measure_block block).1
  let padded := pad_block block w
  (List.range h).map (fun y => (List.range w).map (fun x =>
    let c := cellAt padded y x
    if c ≠ ' ' then c
    else if neighborCount padded h w y x ≠ 0 then '·' else ' '))

end Main7

/-- C9. outline_block replaces every blank cell of the (padded) block that has at
least one non-blank 8-neighbor by a decoration character — in main.py's version
the dot weight is selected by the neighbor count capped at 3, in main7.py's
version it is always the light dot — leaves other blank cells blank, and never
changes a non-blank cell of the input block (both versions). -/
theorem outline_block_spec (block : Block) (y x : Nat) :
    (cellAt block y x ≠ ' ' → cellAt (outline_block block) y x = cellAt block y x) ∧
    (y < block.length → x < (measure_block block).1 → cellAt block y x = ' ' →
      cellAt (outline_block block) y x =
        (if neighborCount (pad_block block (measure_block block).1) block.length
              (measure_block block).1 y x ≠ 0 then
          OUTLINE_CHARS (min 3 (neighborCount (pad_block block (measure_block block).1)
            block.length (measure_block block).1 y x))
        else ' ')) ∧
    (cellAt block y x ≠ ' ' →
      cellAt (Main7.outline_block block) y x = cellAt block y x) ∧
    (y < block.length → x < (measure_block block).1 → cellAt block y x = ' ' →
      cellAt (Main7.outline_block block) y x =
        (if neighborCount (pad_block block (measure_block block).1) block.length
              (measure_block block).1 y x ≠ 0 then '·' else ' ')) := by
  refine ⟨?_, ?_, ?_, ?_⟩
  · intro h
    obtain ⟨hy, hx⟩ := cellAt_ne_blank_bounds block y x h
    have hxw : x < (measure_block block).1 := lt_of_lt_of_le hx (row_len_le_width block y hy)
    have hpad := cellAt_pad block (measure_block block).1 y x hy hx
    unfold outline_block
    rw [cellAt_grid _ _ _ _ _ hy hxw]
    simp only [hpad, if_pos h]
  · intro hy hxw hblank
    have hpad : cellAt (pad_block block (measure_block block).1) y x = ' ' := by
      rcases lt_or_ge x (block.getD y []).length with hx | hx
      · rw [cellAt_pad block (measure_block block).1 y x hy hx]
        exact hblank
      · exact cellAt_pad_blank block (measure_block block).1 y x hy hx
    unfold outline_block
    rw [cellAt_grid _ _ _ _ _ hy hxw]
    simp only [hpad, ne_eq, not_true_eq_false, ite_false]
  · intro h
    obtain ⟨hy, hx⟩ := cellAt_ne_blank_bounds block y x h
    have hxw : x < (measure_block block).1 := lt_of_lt_of_le hx (row_len_le_width block y hy)
    have hpad := cellAt_pad block (measure_block block).1 y x hy hx
    unfold Main7.outline_block
    rw [cellAt_grid _ _ _ _ _ hy hxw]
    simp only [hpad, if_pos h]
  · intro hy hxw hblank
    have hpad : cellAt (pad_block block (measure_block block).1) y x = ' ' := by
      rcases lt_or_ge x (block.getD y []).length with hx | hx
      · rw [cellAt_pad block (measure_block block).1 y x hy hx]
        exact hblank
      · exact cellAt_pad_blank block (measure_block block).1 y x hy hx
    unfold Main7.outline_block
    rw [cellAt_grid _ _ _ _ _ hy hxw]
    simp only [hpad, ne_eq, not_true_eq_false, ite_false]

/-- Witness for outline_block_spec: in the block " #", the non-blank cell keeps
its character and the blank cell next to it becomes a light dot, in both
versions. -/
theorem outline_block_spec_witness :
    cellAt (outline_block [[' ', '#']]) 0 1 = '#' ∧
      cellAt (outline_block [[' ', '#']]) 0 0 = '·' ∧
      cellAt (Main7.outline_block [[' ', '#']]) 0 1 = '#' ∧
      cellAt (Main7.outline_block [[' ', '#']]) 0 0 = '·' := by
  refine ⟨?_, ?_, ?_, ?_⟩
  · have h := (outline_block_spec [[' ', '#']] 0 1).1 (by decide)
    rw [h]
    decide
  · have h := (outline_block_spec [[' ', '#']] 0 0).2.1 (by decide) (by decide) (by decide)
    rw [h]
    decide
  · have h := (outline_block_spec [[' ', '#']] 0 1).2.2.1 (by decide)
    rw [h]
    decide
  · have h := (outline_block_spec [[' ', '#']] 0 0).2.2.2 (by decide) (by decide) (by decide)
    rw [h]
    decide

-- ===================== Main5.py scramble state machine =====================

theorem getD_set_self {α : Type} (l : List α) (i : Nat) (a d : α) (h : i < l.length) :
    (l.set i a).getD i d = a := by
  rw [List.getD_eq_getElem?_getD, List.getElem?_set_self (by simpa using h)]
  rfl

theorem getD_set_ne {α : Type} (l : List α) (i j : Nat) (a d : α) (h : i ≠ j) :
    (l.set i a).getD j d = l.getD j d := by
  rw [List.getD_eq_getElem?_getD, List.getElem?_set_ne h, ← List.getD_eq_getElem?_getD]

namespace Main5

/-- The per-line state of animate_scramble_ascii in Main5.py: target characters,
displayed characters, lock flags, attempt counters, and the shared generator. -/
structure ScrState where
  tgt : List Char
  disp : List Char
  locked : List Bool
  tries : List Nat
  rng : Rng

/-- locked.index(False) wrapped in try/except: the scan cursor, i.e. the index of
the first unlocked cell, none when the line is fully locked. -/
def firstUnlocked : List Bool → Option Nat
  | [] => none
  | b :: rest => if b then (firstUnlocked rest).map (· + 1) else some 0

/-- One tick of animate_scramble_ascii (Main5.py lines 188-202) on one line:
resolve the first unlocked cell; bump its attempt counter; with probability
bias = min(0.85, 0.15 + attempts*0.02) draw the target character, otherwise draw
a random alphabet character (a blank target is drawn directly as blank); lock the
cell when the draw equals the target. -/
def scrambleStep (alphabet : List Char) (s : ScrState) : ScrState :=
  match firstUnlocked s.locked with
  | none => s
  | some i =>
    let tries2 := s.tries.set i (s.tries.getD i 0 + 1)
    let bias : ℚ := min (85/100) (15/100 + (tries2.getD i 0 : ℚ) * (2/100))
    let u := rnd s.rng
    if u.1 < bias then
      let pick := s.tgt.getD i ' '
      ⟨s.tgt, s.disp.set i pick,
        if pick = s.tgt.getD i ' ' then s.locked.set i true else s.locked, tries2, u.2⟩
    else if s.tgt.getD i ' ' = ' ' then
      ⟨s.tgt, s.disp.set i ' ',
        if ' ' = s.tgt.getD i ' ' then s.locked.set i true else s.locked, tries2, u.2⟩
    else
      let c := choice alphabet u.2
      ⟨s.tgt, s.disp.set i c.1,
        if c.1 = s.tgt.getD i ' ' then s.locked.set i true else s.locked, tries2, c.2⟩

theorem scrambleStep_none (A : List Char) (s : ScrState)
    (h : firstUnlocked s.locked = none) : scrambleStep A s = s := by
  unfold scrambleStep
  rw [h]

theorem scrambleStep_some (A : List Char) (s : ScrState) (i : Nat)
    (h : firstUnlocked s.locked = some i) :
    scrambleStep A s =
      if (rnd s.rng).1 < min (85/100 : ℚ)
          (15/100 + (((s.tries.set i (s.tries.getD i 0 + 1)).getD i 0 : Nat) : ℚ)
            * (2/100)) then
        ⟨s.tgt, s.disp.set i (s.tgt.getD i ' '),
          if s.tgt.getD i ' ' = s.tgt.getD i ' ' then s.locked.set i true else s.locked,
          s.tries.set i (s.tries.getD i 0 + 1), (rnd s.rng).2⟩
      else if s.tgt.getD i ' ' = ' ' then
        ⟨s.tgt, s.disp.set i ' ',
          if ' ' = s.tgt.getD i ' ' then s.locked.set i true else s.locked,
          s.tries.set i (s.tries.getD i 0 + 1), (rnd s.rng).2⟩
      else
        ⟨s.tgt, s.disp.set i (choice A (rnd s.rng).2).1,
          if (choice A (rnd s.rng).2).1 = s.tgt.getD i ' '
          then s.locked.set i true else s.locked,
          s.tries.set i (s.tries.getD i 0 + 1), (choice A (rnd s.rng).2).2⟩ := by
  unfold scrambleStep
  rw [h]

theorem firstUnlocked_getD (l : List Bool) :
    ∀ i, firstUnlocked l = some i → l.getD i true = false := by
  induction l with
  | nil => intro i h; cases h
  | cons b rest ih =>
    intro i h
    cases b with
    | true =>
      have h2 : (firstUnlocked rest).map (· + 1) = some i := h
      obtain ⟨i2, hi2, rfl⟩ := Option.map_eq_some.mp h2
      simpa using ih i2 hi2
    | false =>
      have h2 : (some 0 : Option Nat) = some i := h
      injection h2 with h2
      subst h2
      rfl

theorem firstUnlocked_set_gt (l : List Bool) :
    ∀ i, firstUnlocked l = some i →
      ∀ j, firstUnlocked (l.set i true) = some j → i < j := by
  induction l with
  | nil => intro i h; cases h
  | cons b rest ih =>
    intro i h j hj
    cases b with
    | true =>
      have h2 : (firstUnlocked rest).map (· + 1) = some i := h
      obtain ⟨i2, hi2, rfl⟩ := Option.map_eq_some.mp h2
      rw [List.set_cons_succ] at hj
      have h3 : (firstUnlocked (rest.set i2 true)).map (· + 1) = some j := hj
      obtain ⟨j2, hj2, rfl⟩ := Option.map_eq_some.mp h3
      have := ih i2 hi2 j2 hj2
      omega
    | false =>
      have h2 : (some 0 : Option Nat) = some i := h
      injection h2 with h2
      subst h2
      rw [List.set_cons_zero] at hj
      have h3 : (firstUnlocked rest).map (· + 1) = some j := hj
      obtain ⟨j2, _, rfl⟩ := Option.map_eq_some.mp h3
      omega

end Main5

/-- C4, amended. One tick of Main5.py's character-cell scramble at the scan
cursor i (the first unlocked cell of the line): the attempt counter of cell i is
bumped; when the random draw falls below bias = min(0.85, 0.15 + attempts*0.02)
the target symbol is drawn; if the drawn symbol equals the target, the cell locks
and the cursor moves to a strictly later unlocked cell; otherwise the cell stays
unlocked, the drawn symbol comes from the alphabet, and the cursor remains at
cell i (it does not advance on a mismatch). -/
theorem scramble_step_spec (A : List Char) (s : Main5.ScrState) (i : Nat)
    (hcur : Main5.firstUnlocked s.locked = some i) (hA : A ≠ [])
    (hdisp : i < s.disp.length) (htr : i < s.tries.length) :
    (Main5.scrambleStep A s).tries = s.tries.set i (s.tries.getD i 0 + 1) ∧
    (s.rng.floats s.rng.fi
        < min (85/100 : ℚ) (15/100 + ((s.tries.getD i 0 + 1 : Nat) : ℚ) * (2/100)) →
      (Main5.scrambleStep A s).disp.getD i ' ' = s.tgt.getD i ' ') ∧
    ((Main5.scrambleStep A s).disp.getD i ' ' = s.tgt.getD i ' ' →
      (Main5.scrambleStep A s).locked = s.locked.set i true ∧
      ∀ j, Main5.firstUnlocked (Main5.scrambleStep A s).locked = some j → i < j) ∧
    ((Main5.scrambleStep A s).disp.getD i ' ' ≠ s.tgt.getD i ' ' →
      (Main5.scrambleStep A s).locked = s.locked ∧
      Main5.firstUnlocked (Main5.scrambleStep A s).locked = some i ∧
      (Main5.scrambleStep A s).disp.getD i ' ' ∈ A) := by
  have hbias : (s.tries.set i (s.tries.getD i 0 + 1)).getD i 0 = s.tries.getD i 0 + 1 :=
    getD_set_self _ _ _ _ htr
  rw [Main5.scrambleStep_some A s i hcur, hbias]
  by_cases hu : (rnd s.rng).1
      < min (85/100 : ℚ) (15/100 + ((s.tries.getD i 0 + 1 : Nat) : ℚ) * (2/100))
  · -- bias branch: the target symbol is drawn and the cell locks
    rw [if_pos hu]
    rw [if_pos rfl]
    have hdget : (s.disp.set i (s.tgt.getD i ' ')).getD i ' ' = s.tgt.getD i ' ' :=
      getD_set_self _ _ _ _ hdisp
    refine ⟨by trivial, fun _ => hdget, fun _ => ⟨by trivial, ?_⟩,
      fun hne => absurd hdget hne⟩
    exact Main5.firstUnlocked_set_gt s.locked i hcur
  · rw [if_neg hu]
    by_cases hsp : s.tgt.getD i ' ' = ' '
    · -- blank target: the blank is drawn and the cell locks
      rw [if_pos hsp]
      rw [if_pos hsp.symm]
      have hdget : (s.disp.set i ' ').getD i ' ' = ' ' := getD_set_self _ _ _ _ hdisp
      have hdget2 : (s.disp.set i ' ').getD i ' ' = s.tgt.getD i ' ' := by
        rw [hdget, hsp]
      refine ⟨by trivial, fun hlt => absurd hlt hu, fun _ => ⟨by trivial, ?_⟩,
        fun hne => absurd hdget2 hne⟩
      exact Main5.firstUnlocked_set_gt s.locked i hcur
    · -- alphabet draw
      rw [if_neg hsp]
      have hdget : (s.disp.set i (choice A (rnd s.rng).2).1).getD i ' '
          = (choice A (rnd s.rng).2).1 := getD_set_self _ _ _ _ hdisp
      have hmem : (choice A (rnd s.rng).2).1 ∈ A := by
        have hlt : (rnd s.rng).2.choices (rnd s.rng).2.ci % A.length < A.length :=
          Nat.mod_lt _ (List.length_pos.mpr hA)
        show A.getD ((rnd s.rng).2.choices (rnd s.rng).2.ci % A.length) ' ' ∈ A
        rw [getD_row A _ ' ' hlt]
        exact List.getElem_mem hlt
      by_cases hpick : (choice A (rnd s.rng).2).1 = s.tgt.getD i ' '
      · rw [if_pos hpick]
        have hdget2 : (s.disp.set i (choice A (rnd s.rng).2).1).getD i ' '
            = s.tgt.getD i ' ' := by rw [hdget, hpick]
        refine ⟨by trivial, fun hlt => absurd hlt hu, fun _ => ⟨by trivial, ?_⟩,
          fun hne => absurd hdget2 hne⟩
        exact Main5.firstUnlocked_set_gt s.locked i hcur
      · rw [if_neg hpick]
        have hdget2 : (s.disp.set i (choice A (rnd s.rng).2).1).getD i ' '
            ≠ s.tgt.getD i ' ' := by rw [hdget]; exact hpick
        refine ⟨by trivial, fun hlt => absurd hlt hu, fun heq => absurd heq hdget2,
          fun _ => ⟨by trivial, hcur, ?_⟩⟩
        rw [hdget]
        exact hmem

/-- Witness for scramble_step_spec: a concrete two-cell line where the draw falls
below the bias, so the first cell locks with its target character. -/
theorem scramble_step_spec_witness :
    (Main5.scrambleStep ['A', 'B', 'C']
        ⟨['A', 'B'], ['X', 'Y'], [false, false], [0, 0], ⟨fun _ => 0, fun _ => 2, 0, 0⟩⟩).tries
      = List.set [0, 0] 0 (List.getD [0, 0] 0 0 + 1) ∧
    (Main5.scrambleStep ['A', 'B', 'C']
        ⟨['A', 'B'], ['X', 'Y'], [false, false], [0, 0], ⟨fun _ => 0, fun _ => 2, 0, 0⟩⟩).disp.getD 0 ' '
      = List.getD ['A', 'B'] 0 ' ' := by
  have h := scramble_step_spec ['A', 'B', 'C']
    ⟨['A', 'B'], ['X', 'Y'], [false, false], [0, 0], ⟨fun _ => 0, fun _ => 2, 0, 0⟩⟩ 0
    rfl (by decide) (by decide) (by decide)
  exact ⟨h.1, h.2.1 (by norm_num)⟩

/-- Explicit form of one Main5 scramble tick when the draw misses the bias, the
target is non-blank, and the alphabet character drawn differs from the target. -/
theorem scramble_step_mismatch (A : List Char) (s : Main5.ScrState) (i : Nat)
    (hcur : Main5.firstUnlocked s.locked = some i)
    (hu : ¬ ((rnd s.rng).1 < min (85/100 : ℚ)
      (15/100 + (((s.tries.set i (s.tries.getD i 0 + 1)).getD i 0 : Nat) : ℚ) * (2/100))))
    (hsp : ¬ (s.tgt.getD i ' ' = ' '))
    (hpick : ¬ ((choice A (rnd s.rng).2).1 = s.tgt.getD i ' ')) :
    Main5.scrambleStep A s
      = ⟨s.tgt, s.disp.set i (choice A (rnd s.rng).2).1, s.locked,
        s.tries.set i (s.tries.getD i 0 + 1), (choice A (rnd s.rng).2).2⟩ := by
  rw [Main5.scrambleStep_some A s i hcur]
  rw [if_neg hu, if_neg hsp, if_neg hpick]

/-- C4 counterexample, refuting the claim as stated: a tick whose draw mismatches
the target leaves the scan cursor where it was (the first unlocked cell), rather
than advancing it forward. -/
theorem scramble_step_spec_cex :
    (Main5.scrambleStep ['A', 'B', 'C']
        ⟨['A', 'B'], ['X', 'Y'], [false, false], [0, 0], ⟨fun _ => 1, fun _ => 2, 0, 0⟩⟩).disp.getD 0 ' '
      ≠ List.getD ['A', 'B'] 0 ' ' ∧
    (Main5.scrambleStep ['A', 'B', 'C']
        ⟨['A', 'B'], ['X', 'Y'], [false, false], [0, 0], ⟨fun _ => 1, fun _ => 2, 0, 0⟩⟩).locked
      = [false, false] ∧
    Main5.firstUnlocked (Main5.scrambleStep ['A', 'B', 'C']
        ⟨['A', 'B'], ['X', 'Y'], [false, false], [0, 0], ⟨fun _ => 1, fun _ => 2, 0, 0⟩⟩).locked
      = Main5.firstUnlocked [false, false] := by
  have hstep := scramble_step_mismatch ['A', 'B', 'C']
    ⟨['A', 'B'], ['X', 'Y'], [false, false], [0, 0], ⟨fun _ => 1, fun _ => 2, 0, 0⟩⟩ 0
    rfl
    (by norm_num [rnd, List.set_cons_zero, List.getD_cons_zero])
    (by decide) (by decide)
  rw [hstep]
  refine ⟨by decide, by decide, by decide⟩

/-- One Main5 scramble tick never unlocks a locked cell and never changes the
displayed character of a locked cell. -/
theorem scramble_step_preserves (A : List Char) (s : Main5.ScrState) (j : Nat)
    (hj : s.locked.getD j false = true) :
    (Main5.scrambleStep A s).locked.getD j false = true ∧
    (Main5.scrambleStep A s).disp.getD j ' ' = s.disp.getD j ' ' := by
  cases hcur : Main5.firstUnlocked s.locked with
  | none =>
    rw [Main5.scrambleStep_none A s hcur]
    exact ⟨hj, rfl⟩
  | some i =>
    have hne : i ≠ j := by
      intro he
      subst he
      have h1 : s.locked.getD i true = false := Main5.firstUnlocked_getD s.locked i hcur
      have hlt : i < s.locked.length := by
        by_contra hge
        rw [List.getD_eq_default _ _ (le_of_not_lt hge)] at h1
        cases h1
      rw [getD_row _ _ _ hlt] at h1 hj
      rw [h1] at hj
      cases hj
    have hdisp : ∀ c : Char, (s.disp.set i c).getD j ' ' = s.disp.getD j ' ' :=
      fun c => getD_set_ne _ _ _ _ _ hne
    have hlock : (s.locked.set i true).getD j false = true := by
      rw [getD_set_ne _ _ _ _ _ hne]
      exact hj
    rw [Main5.scrambleStep_some A s i hcur]
    by_cases h1 : (rnd s.rng).1 < min (85/100 : ℚ)
        (15/100 + (((s.tries.set i (s.tries.getD i 0 + 1)).getD i 0 : Nat) : ℚ) * (2/100))
    · rw [if_pos h1, if_pos rfl]
      exact ⟨hlock, hdisp _⟩
    · rw [if_neg h1]
      by_cases h2 : s.tgt.getD i ' ' = ' '
      · rw [if_pos h2, if_pos h2.symm]
        exact ⟨hlock, hdisp _⟩
      · rw [if_neg h2]
        by_cases h3 : (choice A (rnd s.rng).2).1 = s.tgt.getD i ' '
        · rw [if_pos h3]
          exact ⟨hlock, hdisp _⟩
        · rw [if_neg h3]
          exact ⟨hj, hdisp _⟩

/-- C5. Monotonic lock: once a cell of the Main5.py scramble line is locked, any
number of further ticks leaves it locked and leaves its displayed character
unchanged. -/
theorem scramble_lock_monotonic (A : List Char) (s : Main5.ScrState) (j n : Nat)
    (hj : s.locked.getD j false = true) :
    ((Main5.scrambleStep A)^[n] s).locked.getD j false = true ∧
    ((Main5.scrambleStep A)^[n] s).disp.getD j ' ' = s.disp.getD j ' ' := by
  induction n with
  | zero => exact ⟨hj, rfl⟩
  | succ n ih =>
    obtain ⟨ihl, ihd⟩ := ih
    rw [Function.iterate_succ_apply']
    have h := scramble_step_preserves A ((Main5.scrambleStep A)^[n] s) j ihl
    exact ⟨h.1, h.2.trans ihd⟩

/-- Witness for scramble_lock_monotonic: the first cell is locked and keeps its
display across two ticks. -/
theorem scramble_lock_monotonic_witness :
    ((Main5.scrambleStep ['A', 'B'])^[2]
        ⟨['A', 'B'], ['A', 'Y'], [true, false], [1, 0], ⟨fun _ => 1, fun _ => 0, 0, 0⟩⟩).locked.getD 0 false
      = true ∧
    ((Main5.scrambleStep ['A', 'B'])^[2]
        ⟨['A', 'B'], ['A', 'Y'], [true, false], [1, 0], ⟨fun _ => 1, fun _ => 0, 0, 0⟩⟩).disp.getD 0 ' '
      = List.getD ['A', 'Y'] 0 ' ' :=
  scramble_lock_monotonic ['A', 'B']
    ⟨['A', 'B'], ['A', 'Y'], [true, false], [1, 0], ⟨fun _ => 1, fun _ => 0, 0, 0⟩⟩ 0 2
    (by decide)

-- ===================== delta renderer (Main5.py) =====================

/-- A token of a styled terminal line: one printable character or one ANSI color
escape sequence (written in the source as ESC [ code m). Lines handed to the
renderer are lists of tokens; strip_ansi keeps exactly the character tokens. -/
inductive Tok where
  | ch (c : Char)
  | esc (code : String)
deriving DecidableEq, Repr

/-- The RESET escape sequence appended after every rewritten row. -/
def RESET : Tok := Tok.esc "0"

/-- strip_ansi from Main5.py: remove the color escape sequences. -/
def stripAnsi (l : List Tok) : List Char :=
  l.filterMap (fun t => match t with | .ch c => some c | .esc _ => none)

/-- The persistent state of the flicker-free Renderer of Main5.py: the previously
drawn (padded) rows and the drawn height. -/
structure Renderer where
  prev : List (List Tok)
  height : Nat
deriving DecidableEq

/-- One emitted terminal write: the target row (1-based, via goto(row,1)) and the
written tokens. -/
abbrev Write := Nat × List Tok

/-- Renderer.draw from Main5.py. Returns the new state and the list of terminal
writes, in emission order: bail out if the frame equals the previous one; pad
every line to the frame's maximum color-stripped width; rewrite each row whose
padded content differs from the stored previous row (absent previous rows compare
as None, absent new rows as the empty string); finally blank every leftover old
row with spaces when the new frame has fewer rows. -/
def Renderer.draw (st : Renderer) (lines : List (List Tok)) : Renderer × List Write :=
  if lines = st.prev then (st, [])
  else
    let widths := lines.map (fun l => (stripAnsi l).length)
    let width := widths.foldr max 0
    let padded := lines.map
      (fun l => l ++ List.replicate (width - (stripAnsi l).length) (Tok.ch ' '))
    let maxRows := max st.prev.length padded.length
    let rowWrites := (List.range maxRows).filterMap (fun r =>
      let newLine := padded.getD r []
      let oldLine := st.prev[r]?
      if some newLine ≠ oldLine then some (r + 1, newLine ++ [RESET]) else none)
    let blankWrites :=
      if padded.length < st.prev.length then
        (List.range (st.prev.length - padded.length)).map (fun k =>
          (padded.length + k + 1,
            (List.replicate (stripAnsi (st.prev.getD (padded.length + k) [])).length
              (Tok.ch ' ') : List Tok)))
      else []
    (⟨padded, maxRows⟩, rowWrites ++ blankWrites)

theorem stripAnsi_append (a b : List Tok) :
    stripAnsi (a ++ b) = stripAnsi a ++ stripAnsi b :=
  List.filterMap_append _ _ _

theorem stripAnsi_replicate_blank (m : Nat) :
    stripAnsi (List.replicate m (Tok.ch ' ')) = List.replicate m ' ' := by
  induction m with
  | zero => rfl
  | succ n ih =>
    simp only [List.replicate_succ, stripAnsi, List.filterMap_cons]
    simp only [stripAnsi] at ih
    rw [ih]

/-- When every line already has the frame's common stripped width, padding is the
identity. -/
theorem draw_padded_self (lines : List (List Tok)) (w : Nat)
    (h : ∀ l ∈ lines, (stripAnsi l).length = w) :
    lines.map (fun l => l ++ List.replicate
      ((lines.map (fun l2 => (stripAnsi l2).length)).foldr max 0
        - (stripAnsi l).length) (Tok.ch ' '))
      = lines := by
  rcases eq_or_ne lines [] with rfl | hne
  · rfl
  · have hw : (lines.map (fun l2 => (stripAnsi l2).length)).foldr max 0 = w := by
      apply foldr_max_const w _ (by simpa using hne)
      intro a ha
      obtain ⟨l, hl, rfl⟩ := List.mem_map.mp ha
      exact h l hl
    rw [hw]
    have hid : ∀ l ∈ lines,
        l ++ List.replicate (w - (stripAnsi l).length) (Tok.ch ' ') = l := by
      intro l hl
      rw [h l hl]
      simp
    calc lines.map _ = lines.map id := List.map_congr_left hid
    _ = lines := List.map_id _

theorem draw_not_bail (st : Renderer) (lines : List (List Tok)) (w : Nat)
    (hne : lines ≠ st.prev) (hw : ∀ l ∈ lines, (stripAnsi l).length = w) :
    Renderer.draw st lines
      = (⟨lines, max st.prev.length lines.length⟩,
        ((List.range (max st.prev.length lines.length)).filterMap (fun r =>
          if some (lines.getD r []) ≠ st.prev[r]?
          then some (r + 1, lines.getD r [] ++ [RESET]) else none))
        ++ (if lines.length < st.prev.length then
              (List.range (st.prev.length - lines.length)).map (fun k =>
                (lines.length + k + 1,
                  (List.replicate (stripAnsi (st.prev.getD (lines.length + k) [])).length
                    (Tok.ch ' ') : List Tok)))
            else [])) := by
  unfold Renderer.draw
  rw [if_neg hne]
  simp only [draw_padded_self lines w hw]

theorem draw_prev_of_uniform (st : Renderer) (F : List (List Tok)) (w : Nat)
    (h : ∀ l ∈ F, (stripAnsi l).length = w) :
    ((Renderer.draw st F).1).prev = F := by
  rcases eq_or_ne F st.prev with heq | hne
  · unfold Renderer.draw
    rw [if_pos heq]
    exact heq.symm
  · rw [draw_not_bail st F w hne h]

theorem draw_bail (st : Renderer) (lines : List (List Tok)) (h : lines = st.prev) :
    Renderer.draw st lines = (st, []) := by
  unfold Renderer.draw
  rw [if_pos h]

/-- Drawing an already-padded frame right after it has been drawn is a complete
no-op: no writes, no state change. -/
theorem draw_identical_noop (st : Renderer) (F : List (List Tok)) (w : Nat)
    (h : ∀ l ∈ F, (stripAnsi l).length = w) :
    Renderer.draw ((Renderer.draw st F).1) F = ((Renderer.draw st F).1, []) :=
  draw_bail _ F (draw_prev_of_uniform st F w h).symm

theorem filterMap_range_single {α : Type} (f : Nat → Option α) (L k : Nat) (y : α)
    (hk : k < L) (hfk : f k = some y) (hother : ∀ r, r < L → r ≠ k → f r = none) :
    (List.range L).filterMap f = [y] := by
  induction L with
  | zero => omega
  | succ m ih =>
    rw [List.range_succ, List.filterMap_append]
    rcases eq_or_lt_of_le (Nat.lt_succ_iff.mp hk) with rfl | hkm
    · have hnil : (List.range k).filterMap f = [] := by
        rw [List.filterMap_eq_nil_iff]
        intro a ha
        have ham := List.mem_range.mp ha
        exact hother a (Nat.lt_succ_of_lt ham) (by omega)
      rw [hnil]
      simp [hfk]
    · rw [ih hkm (fun r hr hne => hother r (Nat.lt_succ_of_lt hr) hne)]
      have hm : f m = none := hother m (Nat.lt_succ_self m) (by omega)
      simp [hm]

-- ===================== C2: delta minimality =====================

/-- C2, amended. For frames already padded to a common color-stripped width w
(as Main4.py's docstring requires): after drawing F1, drawing an equal-height F2
that differs from F1 exactly in row k issues exactly one row write, of row k+1
(1-based); drawing the same frame again right away is a no-op (no writes, state
unchanged), and likewise drawing F1 twice issues no writes the second time. -/
theorem draw_delta_minimality (st0 : Renderer) (F1 F2 : List (List Tok)) (w k : Nat)
    (h1 : ∀ l ∈ F1, (stripAnsi l).length = w)
    (h2 : ∀ l ∈ F2, (stripAnsi l).length = w)
    (hlen : F2.length = F1.length)
    (hk : k < F1.length)
    (hdiff : F2[k]? ≠ F1[k]?)
    (hsame : ∀ j, j ≠ k → F2[j]? = F1[j]?) :
    ((Renderer.draw ((Renderer.draw st0 F1).1) F2).2).map Prod.fst = [k + 1] ∧
    Renderer.draw ((Renderer.draw ((Renderer.draw st0 F1).1) F2).1) F2
      = ((Renderer.draw ((Renderer.draw st0 F1).1) F2).1, []) ∧
    Renderer.draw ((Renderer.draw st0 F1).1) F1 = ((Renderer.draw st0 F1).1, []) := by
  have hprev1 := draw_prev_of_uniform st0 F1 w h1
  have hneq : F2 ≠ F1 := by
    intro he
    rw [he] at hdiff
    exact hdiff rfl
  have hne2 : F2 ≠ ((Renderer.draw st0 F1).1).prev := by
    rw [hprev1]
    exact hneq
  refine ⟨?_, draw_identical_noop _ F2 w h2, draw_identical_noop st0 F1 w h1⟩
  rw [draw_not_bail _ F2 w hne2 h2, hprev1, hlen, max_self]
  have hrow : (List.range F1.length).filterMap (fun r =>
      if some (F2.getD r []) ≠ F1[r]?
      then some (r + 1, F2.getD r [] ++ [RESET]) else none)
      = [(k + 1, F2.getD k [] ++ [RESET])] := by
    apply filterMap_range_single _ _ _ _ hk
    · have hcond : some (F2.getD k []) ≠ F1[k]? := by
        rw [getD_row F2 k [] (by omega),
          ← List.getElem?_eq_getElem (by omega : k < F2.length)]
        exact hdiff
      rw [if_pos hcond]
    · intro r hr hne
      rw [if_neg]
      simp only [ne_eq, not_not]
      rw [getD_row F2 r [] (by omega), ← List.getElem?_eq_getElem (by omega : r < F2.length)]
      exact hsame r hne
  rw [hrow]
  rw [if_neg (by omega)]
  simp

/-- C2 counterexample, refuting the claim as stated (no padding assumption): the
frames [["A"],["B"]] and [["AA"],["B"]] differ only in row 1, but because the
width change forces re-padding, the second draw rewrites both row 1 and row 2. -/
theorem draw_delta_minimality_cex :
    ([[Tok.ch 'A', Tok.ch 'A'], [Tok.ch 'B']] : List (List Tok))[1]?
        = ([[Tok.ch 'A'], [Tok.ch 'B']] : List (List Tok))[1]? ∧
    ([[Tok.ch 'A', Tok.ch 'A'], [Tok.ch 'B']] : List (List Tok))[0]?
        ≠ ([[Tok.ch 'A'], [Tok.ch 'B']] : List (List Tok))[0]? ∧
    ((Renderer.draw (Renderer.draw ⟨[], 0⟩ [[Tok.ch 'A'], [Tok.ch 'B']]).1
        [[Tok.ch 'A', Tok.ch 'A'], [Tok.ch 'B']]).2).map Prod.fst = [1, 2] := by
  refine ⟨by decide, by decide, by decide⟩

/-- Witness for draw_delta_minimality on padded 2x2 frames differing in row 0. -/
theorem draw_delta_minimality_witness :
    ((Renderer.draw ((Renderer.draw ⟨[], 0⟩
        [[Tok.ch 'A', Tok.ch ' '], [Tok.ch 'B', Tok.ch ' ']]).1)
        [[Tok.ch 'A', Tok.ch 'C'], [Tok.ch 'B', Tok.ch ' ']]).2).map Prod.fst = [0 + 1] :=
  (draw_delta_minimality ⟨[], 0⟩
    [[Tok.ch 'A', Tok.ch ' '], [Tok.ch 'B', Tok.ch ' ']]
    [[Tok.ch 'A', Tok.ch 'C'], [Tok.ch 'B', Tok.ch ' ']] 2 0
    (by decide) (by decide) (by decide) (by decide) (by decide)
    (by intro j hj; match j, hj with
        | (n + 1), _ => cases n <;> rfl)).1

-- ===================== C7: absent rows are blanked =====================

/-- C7. When the new frame has fewer rows than the previously drawn one, draw
emits, for every now-absent row r (0-based, r ≥ new height, r < old height), an
explicit write of row r+1 consisting of as many spaces as the stored row's
color-stripped width. -/
theorem draw_blanks_absent_rows (st : Renderer) (lines : List (List Tok)) (r : Nat)
    (hr1 : lines.length ≤ r) (hr2 : r < st.prev.length) :
    (r + 1, (List.replicate (stripAnsi (st.prev.getD r [])).length (Tok.ch ' ')
      : List Tok)) ∈ (Renderer.draw st lines).2 := by
  have hne : lines ≠ st.prev := by
    intro he
    rw [he] at hr1
    omega
  unfold Renderer.draw
  rw [if_neg hne]
  apply List.mem_append_right
  simp only [List.length_map]
  rw [if_pos (by omega)]
  refine List.mem_map.mpr ⟨r - lines.length, List.mem_range.mpr (by omega), ?_⟩
  have hr : lines.length + (r - lines.length) = r := by omega
  rw [hr]

/-- Witness for draw_blanks_absent_rows: frames of heights 3 then 1; rows 2 and 3
are explicitly blanked on the second draw. -/
theorem draw_blanks_absent_rows_witness :
    ((2, (List.replicate (stripAnsi (((Renderer.draw ⟨[], 0⟩
        [[Tok.ch 'A', Tok.ch 'A', Tok.ch 'A'], [Tok.ch 'B', Tok.ch 'B'],
          [Tok.ch 'C']]).1).prev.getD 1 [])).length (Tok.ch ' ') : List Tok))
      ∈ (Renderer.draw ((Renderer.draw ⟨[], 0⟩
        [[Tok.ch 'A', Tok.ch 'A', Tok.ch 'A'], [Tok.ch 'B', Tok.ch 'B'],
          [Tok.ch 'C']]).1) [[Tok.ch 'D']]).2) ∧
    ((3, (List.replicate (stripAnsi (((Renderer.draw ⟨[], 0⟩
        [[Tok.ch 'A', Tok.ch 'A', Tok.ch 'A'], [Tok.ch 'B', Tok.ch 'B'],
          [Tok.ch 'C']]).1).prev.getD 2 [])).length (Tok.ch ' ') : List Tok))
      ∈ (Renderer.draw ((Renderer.draw ⟨[], 0⟩
        [[Tok.ch 'A', Tok.ch 'A', Tok.ch 'A'], [Tok.ch 'B', Tok.ch 'B'],
          [Tok.ch 'C']]).1) [[Tok.ch 'D']]).2) :=
  ⟨draw_blanks_absent_rows _ [[Tok.ch 'D']] 1 (by decide) (by decide),
    draw_blanks_absent_rows _ [[Tok.ch 'D']] 2 (by decide) (by decide)⟩

-- ===================== C8: padding invariant =====================

/-- C8. If all stored rows have a common color-stripped width (true initially,
the stored list being empty, and preserved by every draw), then after a draw
every stored row's color-stripped length equals the maximum color-stripped line
width of the frame just drawn. -/
theorem draw_padding_invariant (st : Renderer) (lines : List (List Tok)) (w0 : Nat)
    (hprev : ∀ l ∈ st.prev, (stripAnsi l).length = w0) :
    ∀ l ∈ ((Renderer.draw st lines).1).prev,
      (stripAnsi l).length
        = (lines.map (fun l2 => (stripAnsi l2).length)).foldr max 0 := by
  rcases eq_or_ne lines st.prev with heq | hne
  · subst heq
    unfold Renderer.draw
    rw [if_pos rfl]
    intro l hl
    rw [hprev l hl]
    exact (foldr_max_const w0 _
      (by simpa using List.ne_nil_of_mem hl)
      (by intro a ha
          obtain ⟨l2, hl2, rfl⟩ := List.mem_map.mp ha
          exact hprev l2 hl2)).symm
  · unfold Renderer.draw
    rw [if_neg hne]
    intro l hl
    obtain ⟨l2, hl2, rfl⟩ := List.mem_map.mp hl
    rw [stripAnsi_append, stripAnsi_replicate_blank, List.length_append,
      List.length_replicate]
    have hle : (stripAnsi l2).length
        ≤ (lines.map (fun l3 => (stripAnsi l3).length)).foldr max 0 :=
      le_foldr_max _ _ (List.mem_map_of_mem _ hl2)
    omega

/-- Witness for draw_padding_invariant: a fresh renderer drawing a ragged
two-line frame; both stored rows end up with stripped width 2. -/
theorem draw_padding_invariant_witness :
    (stripAnsi (((Renderer.draw ⟨[], 0⟩
        [[Tok.ch 'A', Tok.ch 'B'], [Tok.ch 'C']]).1).prev.getD 0 [])).length
      = ([[Tok.ch 'A', Tok.ch 'B'], [Tok.ch 'C']].map
          (fun l2 => (stripAnsi l2).length)).foldr max 0 ∧
    (stripAnsi (((Renderer.draw ⟨[], 0⟩
        [[Tok.ch 'A', Tok.ch 'B'], [Tok.ch 'C']]).1).prev.getD 1 [])).length
      = ([[Tok.ch 'A', Tok.ch 'B'], [Tok.ch 'C']].map
          (fun l2 => (stripAnsi l2).length)).foldr max 0 := by
  have h := draw_padding_invariant ⟨[], 0⟩ [[Tok.ch 'A', Tok.ch 'B'], [Tok.ch 'C']] 0
    (by intro l hl; cases hl)
  exact ⟨h _ (by decide), h _ (by decide)⟩

-- ===================== C1: convergence at t = 1 =====================

theorem glitchLine_at_one (intensity : ℚ) (l : List Char) :
    ∀ g : Rng, (∀ i, 0 ≤ g.floats i) → (glitchLine 1 intensity l g).1 = l := by
  induction l with
  | nil => intro g _; rfl
  | cons ch rest ih =>
    intro g hg
    by_cases hch : ch = ' '
    · subst hch
      simp only [glitchLine, if_pos rfl]
      exact congrArg (' ' :: ·) (ih _ hg)
    · have h0 : ¬ ((rnd g).1 < intensity * (1 - 1)) := by
        simp only [rnd, sub_self, mul_zero]
        exact not_lt.mpr (hg g.fi)
      simp only [glitchLine, if_neg hch, if_neg h0]
      exact congrArg (ch :: ·) (ih _ hg)

theorem glitchLine_floats (t intensity : ℚ) (l : List Char) :
    ∀ g : Rng, (glitchLine t intensity l g).2.floats = g.floats := by
  induction l with
  | nil => intro g; rfl
  | cons ch rest ih =>
    intro g
    by_cases hch : ch = ' '
    · simp only [glitchLine, if_pos hch]
      exact ih _
    · simp only [glitchLine, if_neg hch]
      split
      · exact ih _
      · exact ih _

theorem glitch_frame_at_one (intensity : ℚ) (block : Block) :
    ∀ g : Rng, (∀ i, 0 ≤ g.floats i) → (glitch_frame block 1 intensity g).1 = block := by
  induction block with
  | nil => intro g _; rfl
  | cons line rest ih =>
    intro g hg
    have hg2 : ∀ i, 0 ≤ (glitchLine 1 intensity line g).2.floats i := by
      rw [glitchLine_floats]
      exact hg
    simp only [glitch_frame]
    rw [glitchLine_at_one intensity line g hg, ih _ hg2]

theorem matrixLine_at_one (density : ℚ) (l : List Char) :
    ∀ g : Rng, g.Valid → (matrixLine 1 density l g).1 = l := by
  induction l with
  | nil => intro g _; rfl
  | cons ch rest ih =>
    intro g hg
    by_cases hch : ch = ' '
    · subst hch
      have h0 : ¬ ((rnd g).1 < density * (1 - 1)) := by
        simp only [rnd, sub_self, mul_zero]
        exact not_lt.mpr (hg g.fi).1
      simp only [matrixLine, ne_eq, not_true_eq_false, if_neg, if_pos, if_neg h0]
      simp only [ite_false]
      exact congrArg (' ' :: ·) (ih _ hg)
    · have h1 : (rnd g).1 < 1 := (hg g.fi).2
      simp only [matrixLine, ne_eq, hch, not_false_eq_true, ite_true, if_pos h1]
      exact congrArg (ch :: ·) (ih _ hg)

theorem matrixLine_floats (t density : ℚ) (l : List Char) :
    ∀ g : Rng, (matrixLine t density l g).2.floats = g.floats := by
  induction l with
  | nil => intro g; rfl
  | cons ch rest ih =>
    intro g
    by_cases hch : ch = ' '
    · simp only [matrixLine, ne_eq, hch, not_true_eq_false, ite_false]
      split
      · exact ih _
      · exact ih _
    · simp only [matrixLine, ne_eq, hch, not_false_eq_true, ite_true]
      split
      · exact ih _
      · exact ih _

theorem matrix_frame_at_one (density : ℚ) (block : Block) :
    ∀ g : Rng, g.Valid → (matrix_frame block 1 density g).1 = block := by
  induction block with
  | nil => intro g _; rfl
  | cons line rest ih =>
    intro g hg
    have hg2 : (matrixLine 1 density line g).2.Valid := by
      unfold Rng.Valid
      rw [matrixLine_floats]
      exact hg
    simp only [matrix_frame]
    rw [matrixLine_at_one density line g hg, ih _ hg2]

/-- C1. At t = 1.0 (the time at which run_animation's loop exits) glitch_frame
and matrix_frame return exactly their input block, for every random stream whose
floats lie in [0,1); and the driver's final reveal is the compose_layers image of
the target block, which agrees with the target on every non-blank target cell. -/
theorem animation_convergence (g : Rng) (hg : g.Valid) (block base : Block)
    (intensity density : ℚ) (outline shadow : Bool) :
    (glitch_frame block 1 intensity g).1 = block ∧
    (matrix_frame block 1 density g).1 = block ∧
    runAnimationFinal outline shadow base = compose_layers base outline shadow ∧
    (∀ y x, cellAt base y x ≠ ' ' →
        cellAt (runAnimationFinal outline shadow base) y x = cellAt base y x) := by
  refine ⟨glitch_frame_at_one intensity block g (fun i => (hg i).1),
    matrix_frame_at_one density block g hg, rfl, ?_⟩
  intro y x h
  exact compose_preserves base outline shadow y x h

/-- Witness for animation_convergence: a concrete block, generator and config. -/
theorem animation_convergence_witness :
    (glitch_frame [['A', ' ', 'B']] 1 (3/10) ⟨fun _ => 1/2, fun _ => 0, 0, 0⟩).1
        = [['A', ' ', 'B']] ∧
    (matrix_frame [['A', ' ', 'B']] 1 (8/100) ⟨fun _ => 1/2, fun _ => 0, 0, 0⟩).1
        = [['A', ' ', 'B']] ∧
    runAnimationFinal true true [['A', ' ', 'B']]
        = compose_layers [['A', ' ', 'B']] true true ∧
    cellAt (runAnimationFinal true true [['A', ' ', 'B']]) 0 0
        = cellAt [['A', ' ', 'B']] 0 0 := by
  have h := animation_convergence ⟨fun _ => 1/2, fun _ => 0, 0, 0⟩
    (fun i => by constructor <;> norm_num) [['A', ' ', 'B']] [['A', ' ', 'B']]
    (3/10) (8/100) true true
  exact ⟨h.1, h.2.1, h.2.2.1, h.2.2.2 0 0 (by decide)⟩

-- ===================== C10: the frame functions preserve the block shape =====================

theorem glitchLine_len (t intensity : ℚ) (l : List Char) :
    ∀ g, (glitchLine t intensity l g).1.length = l.length := by
  induction l with
  | nil => intro g; rfl
  | cons ch rest ih =>
    intro g
    by_cases hch : ch = ' '
    · simp only [glitchLine, if_pos hch, List.length_cons, ih]
    · simp only [glitchLine, if_neg hch]
      split
      · simp [ih]
      · simp [ih]

theorem matrixLine_len (t density : ℚ) (l : List Char) :
    ∀ g, (matrixLine t density l g).1.length = l.length := by
  induction l with
  | nil => intro g; rfl
  | cons ch rest ih =>
    intro g
    by_cases hch : ch = ' '
    · simp only [matrixLine, ne_eq, hch, not_true_eq_false, ite_false]
      split
      · simp [ih]
      · simp [ih]
    · simp only [matrixLine, ne_eq, hch, not_false_eq_true, ite_true]
      split
      · simp [ih]
      · simp [ih]

theorem scrambleLine_len (ease : ℚ → ℚ) (charset : List Char) (w : Nat)
    (t settle_bias wave_ms : ℚ) (l : List Char) :
    ∀ x g, (scrambleLine ease charset w t settle_bias wave_ms x l g).1.length = l.length := by
  induction l with
  | nil => intro x g; rfl
  | cons ch rest ih =>
    intro x g
    by_cases hch : ch = ' '
    · simp only [scrambleLine, if_pos hch, List.length_cons, ih]
    · simp only [scrambleLine, if_neg hch]
      split
      · split
        · split
          · simp [ih]
          · simp [ih]
        · split
          · simp [ih]
          · simp [ih]
      · simp [ih]

theorem maskRow_len (y : Nat) (revealed : List (Nat × Nat)) (l : List Char) :
    ∀ x, (maskRow y revealed x l).length = l.length := by
  induction l with
  | nil => intro x; rfl
  | cons ch rest ih =>
    intro x
    simp only [maskRow, List.length_cons, ih]

/-- Two blocks have the same shape: same line count, corresponding lines of equal
length. -/
def SameShape (a b : Block) : Prop :=
  List.Forall₂ (fun (u v : List Char) => u.length = v.length) a b

theorem scrambleLines_shape (ease : ℚ → ℚ) (charset : List Char) (w : Nat)
    (t settle_bias wave_ms : ℚ) (bl : Block) :
    ∀ g, SameShape bl (scrambleLines ease charset w t settle_bias wave_ms bl g).1 := by
  induction bl with
  | nil => intro g; exact List.Forall₂.nil
  | cons line rest ih =>
    intro g
    exact List.Forall₂.cons (scrambleLine_len ease charset w t settle_bias wave_ms line 0 g).symm
      (ih _)

theorem glitch_frame_shape (t intensity : ℚ) (bl : Block) :
    ∀ g, SameShape bl (glitch_frame bl t intensity g).1 := by
  induction bl with
  | nil => intro g; exact List.Forall₂.nil
  | cons line rest ih =>
    intro g
    exact List.Forall₂.cons (glitchLine_len t intensity line g).symm (ih _)

theorem matrix_frame_shape (t density : ℚ) (bl : Block) :
    ∀ g, SameShape bl (matrix_frame bl t density g).1 := by
  induction bl with
  | nil => intro g; exact List.Forall₂.nil
  | cons line rest ih =>
    intro g
    exact List.Forall₂.cons (matrixLine_len t density line g).symm (ih _)

theorem maskBlock_shape (revealed : List (Nat × Nat)) (bl : Block) :
    ∀ y, SameShape bl (maskBlock revealed y bl) := by
  induction bl with
  | nil => intro y; exact List.Forall₂.nil
  | cons line rest ih =>
    intro y
    exact List.Forall₂.cons (maskRow_len y revealed line 0).symm (ih _)

/-- C10. Each of scramble_frame, typewriter_frame, glitch_frame and matrix_frame
returns a block with exactly as many lines as its input, every output line as
long as the corresponding input line (for any easing, charset, time, tuning
parameters and random stream). -/
theorem frame_functions_preserve_shape (ease : ℚ → ℚ) (block : Block)
    (charset : List Char) (t settle_bias wave_ms intensity density tq : ℚ)
    (cps : Nat) (g : Rng) :
    SameShape block (scramble_frame ease block charset t settle_bias wave_ms g).1 ∧
    SameShape block (typewriter_frame block tq cps) ∧
    SameShape block (glitch_frame block t intensity g).1 ∧
    SameShape block (matrix_frame block t density g).1 :=
  ⟨scrambleLines_shape ease charset (measure_block block).1 t settle_bias wave_ms block g,
    maskBlock_shape _ block 0,
    glitch_frame_shape t intensity block g,
    matrix_frame_shape t density block g⟩
